import Mathlib

/-!
Verification of the Market Data Viewer frontend (React/TypeScript).

This file shallowly embeds the client-side code of the repository:

* `ui/src/api.ts` — wire types (`TradeRecord`, `OhlcvRecord`, `LiveMessage`,
  `HistoricalRequest`, `HistoricalResponse`), the price/scale helpers
  (`formatPrice`, `formatPriceNumber`, `PRICE_SCALE`) and `fetchHistorical`;
* `ui/src/components/LiveStream.tsx` — the WebSocket message handler
  (`handleMessage`) as a state machine over the component's
  `status`/`messageCount` state, with its observable effects (the `onTrade`
  callback, `onDisconnect`, closing the socket) made explicit;
* `ui/src/components/SymbolForm.tsx` — the submit handler
  (`handleFetchHistorical`) and the limit field's `onChange` coercion;
* `ui/src/components/HistoricalChart.tsx` — the candlestick series
  construction (map to chart points, sort by time ascending);
* `ui/src/App.tsx` — the live-trade ring buffer (`handleLiveTrade`).

Modelling conventions: JavaScript numbers are idealised as exact arithmetic
(`Int` for integral fields, `ℚ` where the code divides); JavaScript strings
manipulated character-wise (split/trim) are embedded as `List Char`; browser
APIs the code merely calls through (`Date.toISOString`) are taken as an
abstract function parameter.
-/

/-- The `Schema` union type of `SymbolForm.tsx` / `api.ts`:
`'trades' | 'ohlcv-1s' | 'ohlcv-1m'`. -/
inductive Schema where
  | trades
  | ohlcv1s
  | ohlcv1m
deriving DecidableEq, Repr

/-- `TradeRecord` from `api.ts`. -/
structure TradeRecord where
  ts_event_unix_ns : Int
  symbol : String
  price_i64 : Int
  size_u32 : Int
deriving DecidableEq, Repr

/-- `OhlcvRecord` from `api.ts`. -/
structure OhlcvRecord where
  ts_event_unix_ns : Int
  symbol : String
  open_i64 : Int
  high_i64 : Int
  low_i64 : Int
  close_i64 : Int
  volume_u64 : Int
deriving DecidableEq, Repr

/-- The tagged `LiveMessage` union from `api.ts`. -/
inductive LiveMessage where
  | trade (ts_event_unix_ns : Int) (symbol : String) (price_i64 : Int) (size_u32 : Int)
  | ohlcv (ts_event_unix_ns : Int) (symbol : String) (open_i64 high_i64 low_i64 close_i64 : Int)
      (volume_u64 : Int)
  | error (message : String)
  | connected (symbols : List String) (schema : String)
deriving DecidableEq, Repr

/-- The `status` state of `LiveStream.tsx`:
`'connecting' | 'connected' | 'error'`. -/
inductive ConnStatus where
  | connecting
  | connected
  | error
deriving DecidableEq, Repr

/-- The component state of `LiveStream.tsx` that `handleMessage` touches:
`status` and `messageCount`. -/
structure ClientState where
  status : ConnStatus
  messageCount : Nat
deriving DecidableEq, Repr

/-- One step's observable outcome: the successor state, the `TradeRecord`
passed to `onTrade` (if any), whether `onDisconnect` was invoked, and whether
the WebSocket was closed. -/
structure StepResult where
  state : ClientState
  emitted : Option TradeRecord
  calledOnDisconnect : Bool
  closedSocket : Bool
deriving DecidableEq, Repr

/-- `handleMessage` from `LiveStream.tsx`: on `'connected'` set status;
on `'trade'` bump the count and call `onTrade` with the four copied fields;
on `'error'` set status to `'error'`; any other tag (`'ohlcv'`) falls through
the `if`/`else if` chain and does nothing.  `handleMessage` never closes the
socket and never calls `onDisconnect` (those happen only in `handleClose`
and the effect cleanup). -/
def handleMessage (s : ClientState) (msg : LiveMessage) : StepResult :=
  match msg with
  | .connected _ _ => ⟨⟨.connected, s.messageCount⟩, none, false, false⟩
  | .trade ts sym price sz =>
      ⟨⟨s.status, s.messageCount + 1⟩, some ⟨ts, sym, price, sz⟩, false, false⟩
  | .error _ => ⟨⟨.error, s.messageCount⟩, none, false, false⟩
  | .ohlcv _ _ _ _ _ _ _ => ⟨s, none, false, false⟩

/-- Run the handler over a message sequence from the initial state
(`useState('connecting')`, `useState(0)`). -/
def runClient (msgs : List LiveMessage) : ClientState :=
  msgs.foldl (fun s m => (handleMessage s m).state) ⟨.connecting, 0⟩

/-- Tag test: is a message the `'connected'` acknowledgement? -/
def isConnectedMsg : LiveMessage → Bool
  | .connected _ _ => true
  | _ => false

/-- The `HistoricalResponse` tagged union from `api.ts`. -/
inductive HistoricalResponse where
  | trades (data : List TradeRecord)
  | ohlcv1s (data : List OhlcvRecord)
  | ohlcv1m (data : List OhlcvRecord)
deriving DecidableEq, Repr

/-- The slice of an HTTP response that `fetchHistorical` inspects: the `ok`
flag (2xx status), the optional `error` string field of the parsed JSON body,
and the parsed body on the success path. -/
structure HttpResponse where
  ok : Bool
  errorField : Option String
  payload : HistoricalResponse
deriving DecidableEq, Repr

/-- JavaScript `a || b` on a possibly-absent string: `undefined` and the
empty string are falsy, any other string is returned as is. -/
def jsOrDefault (o : Option String) (d : String) : String :=
  match o with
  | some s => if s = "" then d else s
  | none => d

/-- `fetchHistorical` from `api.ts`: on a non-`ok` response it throws
`new Error(error.error || 'Failed to fetch historical data')`; on an `ok`
response it returns the parsed body. -/
def fetchHistorical (r : HttpResponse) : Except String HistoricalResponse :=
  if r.ok then .ok r.payload
  else .error (jsOrDefault r.errorField ("Failed to fetch historical data"))

/-- `PRICE_SCALE = 1e9` from `api.ts` ("DataBento uses fixed-point 1e-9
format"), with the JavaScript number idealised as an exact rational. -/
def PRICE_SCALE : ℚ := 1e9

/-- `formatPriceNumber` from `api.ts`: `priceI64 / PRICE_SCALE`. -/
def formatPriceNumber (priceI64 : Int) : ℚ := (priceI64 : ℚ) / PRICE_SCALE

/-- The numeric value rendered by `Number.toFixed(2)`: the quotient rounded
to two decimal places (exact-arithmetic idealisation). -/
def toFixed2 (q : ℚ) : ℚ := (round (q * 100) : ℤ) / 100

/-- `formatPrice` from `api.ts`: `(priceI64 / PRICE_SCALE).toFixed(2)`,
modelled by the numeric value it renders. -/
def formatPrice (priceI64 : Int) : ℚ := toFixed2 ((priceI64 : ℚ) / PRICE_SCALE)

/-- `HistoricalRequest` from `api.ts`; the `symbols` are embedded as
character lists since the form manipulates them character-wise. -/
structure HistoricalRequest where
  symbols : List (List Char)
  schema : Schema
  stype_in : Option String
  start_rfc3339 : String
  end_rfc3339 : String
  limit : Option Int
deriving DecidableEq, Repr

/-- JavaScript `String.prototype.trim`: drop leading and trailing
whitespace. -/
def jsTrim (l : List Char) : List Char :=
  ((l.dropWhile Char.isWhitespace).reverse.dropWhile Char.isWhitespace).reverse

/-- JavaScript `String.prototype.split(',')`: split on every comma,
keeping empty pieces (`''.split(',')` is `['']`). -/
def splitComma (l : List Char) : List (List Char) :=
  l.splitOn ','

/-- The symbol-list normalisation of `SymbolForm.tsx`:
`symbols.split(',').map(s => s.trim()).filter(s => s.length > 0)`. -/
def parseSymbolList (input : List Char) : List (List Char) :=
  ((splitComma input).map jsTrim).filter (fun s => decide (0 < s.length))

/-- `handleFetchHistorical` from `SymbolForm.tsx`: normalise the symbols
input; if no symbol remains, return without sending; otherwise send the
request with the symbol list, the selected schema, the two times converted
to RFC 3339 by the browser (`new Date(...).toISOString()`, abstracted as
`toRfc3339`), and the current limit state.  `stype_in` is never set. -/
def handleFetchHistorical (toRfc3339 : String → String) (symbolsInput : List Char)
    (schema : Schema) (startTime endTime : String) (limit : Int) :
    Option HistoricalRequest :=
  let symbolList := parseSymbolList symbolsInput
  if symbolList = [] then none
  else some ⟨symbolList, schema, none, toRfc3339 startTime, toRfc3339 endTime, some limit⟩

/-- The numeric value of a digit string. -/
def digitsVal (l : List Char) : Nat :=
  l.foldl (fun a c => a * 10 + (c.toNat - 48)) 0

/-- The maximal leading digit run of a string, as a number; `none` when
there is no leading digit. -/
def parseDigits (l : List Char) : Option Nat :=
  let ds := l.takeWhile Char.isDigit
  if ds = [] then none else some (digitsVal ds)

/-- JavaScript `parseInt` on the decimal strings a number input produces:
skip leading whitespace, honour an optional sign, read the maximal digit
run, and yield `NaN` (here `none`) when no digit follows. -/
def jsParseInt (l : List Char) : Option Int :=
  let t := l.dropWhile Char.isWhitespace
  match t with
  | '-' :: rest => (parseDigits rest).map (fun n => -(n : Int))
  | '+' :: rest => (parseDigits rest).map (fun n => (n : Int))
  | _ => (parseDigits t).map (fun n => (n : Int))

/-- The limit input's `onChange` from `SymbolForm.tsx`:
`setLimit(parseInt(e.target.value) || 100)` — `NaN` and `0` are falsy and
coerced to `100`, any other parsed value is stored as is.  The previous
state is ignored by the handler. -/
def editLimit (_cur : Int) (v : List Char) : Int :=
  match jsParseInt v with
  | none => 100
  | some n => if n = 0 then 100 else n

/-- The limit state after a sequence of edits, starting from the initial
`useState(100)`. -/
def limitAfterEdits (edits : List (List Char)) : Int :=
  edits.foldl editLimit 100

/-- One element of the candlestick series built in `HistoricalChart.tsx`. -/
structure ChartPoint where
  time : ℚ
  opn : ℚ
  high : ℚ
  low : ℚ
  close : ℚ
deriving DecidableEq, Repr

/-- The per-bar conversion of `HistoricalChart.tsx`: `time` is
`ts_event_unix_ns / 1e9` (nanoseconds to Unix seconds) and the four price
fields go through `formatPriceNumber`. -/
def toChartPoint (bar : OhlcvRecord) : ChartPoint :=
  ⟨(bar.ts_event_unix_ns : ℚ) / 1e9,
   formatPriceNumber bar.open_i64,
   formatPriceNumber bar.high_i64,
   formatPriceNumber bar.low_i64,
   formatPriceNumber bar.close_i64⟩

/-- The ascending comparator `(a, b) => a.time - b.time` of
`HistoricalChart.tsx`, as the ordering it induces. -/
def chartLe (a b : ChartPoint) : Bool :=
  decide (a.time ≤ b.time)

/-- The series construction of `HistoricalChart.tsx`: map every bar to a
chart point, then sort by time ascending before `setData`. -/
def chartSeries (data : List OhlcvRecord) : List ChartPoint :=
  (data.map toChartPoint).mergeSort chartLe

/-- `handleLiveTrade` from `App.tsx`: prepend the new trade and keep the
first 100 (`[trade, ...prev].slice(0, 100)`). -/
def handleLiveTrade (prev : List TradeRecord) (trade : TradeRecord) : List TradeRecord :=
  (trade :: prev).take 100

/-- The `liveTrades` state after a sequence of arriving trades, starting
from the empty buffer (`setLiveTrades([])` on connect). -/
def liveTradesAfter (arrivals : List TradeRecord) : List TradeRecord :=
  arrivals.foldl handleLiveTrade []

lemma handleMessage_status_connected (s : ClientState) (m : LiveMessage)
    (h : (handleMessage s m).state.status = .connected) :
    s.status = .connected ∨ isConnectedMsg m = true := by
  cases m with
  | connected syms sch => exact Or.inr rfl
  | trade ts sym p sz => exact Or.inl h
  | error em => exact absurd h (by simp [handleMessage])
  | ohlcv ts sym o hi lo c v => exact Or.inl h

lemma foldl_status_connected (msgs : List LiveMessage) :
    ∀ s : ClientState,
      (msgs.foldl (fun s m => (handleMessage s m).state) s).status = .connected →
      s.status = .connected ∨ ∃ m ∈ msgs, isConnectedMsg m = true := by
  induction msgs with
  | nil => intro s h; exact Or.inl h
  | cons m rest ih =>
      intro s h
      rw [List.foldl_cons] at h
      rcases ih _ h with h1 | ⟨m', hm', hc⟩
      · rcases handleMessage_status_connected s m h1 with h2 | h2
        · exact Or.inl h2
        · exact Or.inr ⟨m, List.mem_cons_self m rest, h2⟩
      · exact Or.inr ⟨m', List.mem_cons_of_mem m hm', hc⟩

lemma PRICE_SCALE_eq : PRICE_SCALE = 10 ^ 9 := by norm_num [PRICE_SCALE]

lemma dropWhile_head?_false {α : Type} (p : α → Bool) (l : List α) :
    ∀ a, (l.dropWhile p).head? = some a → p a = false := by
  induction l with
  | nil => intro a h; simp [List.dropWhile] at h
  | cons b t ih =>
      intro a h
      rw [List.dropWhile_cons] at h
      by_cases hb : p b = true
      · rw [if_pos hb] at h
        exact ih a h
      · rw [if_neg hb] at h
        simp at h
        rw [← h]
        exact Bool.eq_false_iff.mpr hb

lemma dropWhile_eq_self_of_head? {α : Type} (p : α → Bool) (l : List α)
    (h : ∀ a, l.head? = some a → p a = false) : l.dropWhile p = l := by
  cases l with
  | nil => rfl
  | cons b t =>
      rw [List.dropWhile_cons, h b rfl]
      simp

lemma jsTrim_head?_false (l : List Char) :
    ∀ a, (jsTrim l).head? = some a → a.isWhitespace = false := by
  intro a h
  rw [jsTrim] at h
  obtain ⟨t, ht⟩ := List.dropWhile_suffix (l := (l.dropWhile Char.isWhitespace).reverse)
    Char.isWhitespace
  have hrev : l.dropWhile Char.isWhitespace =
      ((l.dropWhile Char.isWhitespace).reverse.dropWhile Char.isWhitespace).reverse ++
        t.reverse := by
    have := congrArg List.reverse ht
    simpa using this.symm
  apply dropWhile_head?_false Char.isWhitespace l a
  rw [hrev, List.head?_append, h]
  rfl

lemma jsTrim_reverse_head?_false (l : List Char) :
    ∀ a, (jsTrim l).reverse.head? = some a → a.isWhitespace = false := by
  intro a h
  rw [jsTrim, List.reverse_reverse] at h
  exact dropWhile_head?_false Char.isWhitespace _ a h

lemma jsTrim_idem (l : List Char) : jsTrim (jsTrim l) = jsTrim l := by
  have h1 : (jsTrim l).dropWhile Char.isWhitespace = jsTrim l :=
    dropWhile_eq_self_of_head? _ _ (jsTrim_head?_false l)
  have h2 : (jsTrim l).reverse.dropWhile Char.isWhitespace = (jsTrim l).reverse :=
    dropWhile_eq_self_of_head? _ _ (jsTrim_reverse_head?_false l)
  rw [jsTrim, h1, h2, List.reverse_reverse]

lemma editLimit_ne_zero (cur : Int) (v : List Char) : editLimit cur v ≠ 0 := by
  rw [editLimit]
  cases h : jsParseInt v with
  | none => simp
  | some n =>
      show (if n = 0 then (100 : Int) else n) ≠ 0
      by_cases hn : n = 0
      · rw [if_pos hn]; simp
      · rw [if_neg hn]; exact hn

lemma editLimit_pos (cur : Int) (v : List Char)
    (h : ∀ n : Int, jsParseInt v = some n → 0 ≤ n) : 0 < editLimit cur v := by
  rw [editLimit]
  cases hv : jsParseInt v with
  | none => simp
  | some n =>
      show 0 < (if n = 0 then (100 : Int) else n)
      by_cases hn : n = 0
      · rw [if_pos hn]; simp
      · rw [if_neg hn]
        exact lt_of_le_of_ne (h n hv) (Ne.symm hn)

lemma foldl_editLimit_ne_zero (edits : List (List Char)) :
    ∀ cur : Int, cur ≠ 0 → edits.foldl editLimit cur ≠ 0 := by
  induction edits with
  | nil => intro cur h; exact h
  | cons e rest ih =>
      intro cur _
      rw [List.foldl_cons]
      exact ih _ (editLimit_ne_zero cur e)

lemma foldl_editLimit_pos (edits : List (List Char))
    (h : ∀ e ∈ edits, ∀ n : Int, jsParseInt e = some n → 0 ≤ n) :
    ∀ cur : Int, 0 < cur → 0 < edits.foldl editLimit cur := by
  induction edits with
  | nil => intro cur hc; exact hc
  | cons e rest ih =>
      intro cur _
      rw [List.foldl_cons]
      refine ih (fun e' he' => h e' (List.mem_cons_of_mem e he')) _ ?_
      exact editLimit_pos cur e (h e (List.mem_cons_self e rest))

lemma take_append_take {α : Type} (xs ys : List α) (n : Nat) :
    (xs ++ ys.take n).take n = (xs ++ ys).take n := by
  rw [List.take_append_eq_append_take, List.take_append_eq_append_take,
    List.take_take]
  congr 1
  rw [min_eq_left (Nat.sub_le n xs.length)]

lemma foldl_handleLiveTrade (arrivals : List TradeRecord) :
    ∀ acc : List TradeRecord, acc.length ≤ 100 →
      arrivals.foldl handleLiveTrade acc = (arrivals.reverse ++ acc).take 100 := by
  induction arrivals with
  | nil =>
      intro acc h
      simp [List.take_of_length_le h]
  | cons t rest ih =>
      intro acc _
      rw [List.foldl_cons]
      rw [ih (handleLiveTrade acc t) (by
        rw [handleLiveTrade, List.length_take]
        exact min_le_left _ _)]
      rw [handleLiveTrade, take_append_take]
      rw [List.reverse_cons, List.append_assoc]
      rfl

/-- **C1.** A live `'trade'` wire message is handed to `onTrade` as a
`TradeRecord` whose `ts_event_unix_ns`, `symbol`, `price_i64` and `size_u32`
are exactly the message's fields, unchanged, from every client state. -/
theorem liveTrade_preserves_wire_fields (s : ClientState) (ts : Int) (sym : String)
    (price sz : Int) :
    (handleMessage s (.trade ts sym price sz)).emitted = some ⟨ts, sym, price, sz⟩ := rfl

/-- **C2 counterexample.** A non-2xx response whose body carries the `error`
field with value `""` is thrown with the fallback message, not with the
field's value — so the thrown message is not always the `error` field when
that field is present. -/
theorem fetchHistorical_error_field_counterexample :
    fetchHistorical ⟨false, some (""), .trades []⟩ =
      .error ("Failed to fetch historical data") ∧
    ("Failed to fetch historical data" : String) ≠ ("" : String) :=
  ⟨rfl, by decide⟩

/-- **C2 (amended).** `fetchHistorical` succeeds exactly on `ok` responses,
returning the parsed body; on a non-`ok` response it throws the body's
`error` field when that field is present and non-empty, and the default
message when the field is absent or empty. -/
theorem fetchHistorical_error_cases (r : HttpResponse) :
    (r.ok = true → fetchHistorical r = .ok r.payload) ∧
    (r.ok = false → ∀ s : String, r.errorField = some s → s ≠ "" →
      fetchHistorical r = .error s) ∧
    (r.ok = false → (r.errorField = none ∨ r.errorField = some "") →
      fetchHistorical r = .error ("Failed to fetch historical data")) ∧
    (∀ e : String, fetchHistorical r = .error e → r.ok = false) := by
  obtain ⟨ok, errF, payload⟩ := r
  refine ⟨fun h => ?_, fun h s hs hne => ?_, fun h hf => ?_, fun e he => ?_⟩
  · subst h; rfl
  · subst h; subst hs; simp [fetchHistorical, jsOrDefault, hne]
  · subst h
    rcases hf with hf | hf <;> subst hf <;> simp [fetchHistorical, jsOrDefault]
  · cases ok with
    | false => rfl
    | true => exact absurd he (by simp [fetchHistorical])

/-- Witness for C2's amended theorem at a concrete failing response with a
non-empty `error` field. -/
theorem fetchHistorical_error_cases_witness :
    fetchHistorical ⟨false, some ("boom"), .trades []⟩ = .error ("boom") :=
  (fetchHistorical_error_cases ⟨false, some ("boom"), .trades []⟩).2.1 rfl
    ("boom") rfl (by decide)

/-- **C3.** Over any incoming message sequence, the client's status is
`'connected'` only if a `'connected'` acknowledgement occurs in the sequence,
and a `'trade'` message never changes the status: data events cannot move the
client out of `'connecting'`. -/
theorem connected_status_requires_ack (msgs : List LiveMessage) :
    ((runClient msgs).status = .connected → ∃ m ∈ msgs, isConnectedMsg m = true) ∧
    ∀ (s : ClientState) (ts : Int) (sym : String) (p sz : Int),
      (handleMessage s (.trade ts sym p sz)).state.status = s.status := by
  refine ⟨fun h => ?_, fun s ts sym p sz => rfl⟩
  rcases foldl_status_connected msgs ⟨.connecting, 0⟩ h with h1 | h1
  · exact absurd h1 (by simp)
  · exact h1

/-- Witness for C3 at a concrete run: receiving the acknowledgement makes the
status `'connected'`, and the implication then yields the acknowledgement's
membership. -/
theorem connected_status_requires_ack_witness :
    (runClient [LiveMessage.connected [("ES.FUT")] ("trades")]).status = .connected ∧
    ∃ m ∈ [LiveMessage.connected [("ES.FUT")] ("trades")], isConnectedMsg m = true :=
  ⟨rfl, (connected_status_requires_ack [LiveMessage.connected [("ES.FUT")] ("trades")]).1 rfl⟩

/-- **C4.** An `'error'` live message sets the status to `'error'` but closes
nothing: the socket stays open, `onDisconnect` is not invoked, no trade is
emitted and the count is unchanged — and every subsequent message is still
processed exactly as it would have been before the error. -/
theorem error_message_is_recoverable (s : ClientState) (em : String) :
    (handleMessage s (.error em)).state.status = .error ∧
    (handleMessage s (.error em)).closedSocket = false ∧
    (handleMessage s (.error em)).calledOnDisconnect = false ∧
    (handleMessage s (.error em)).emitted = none ∧
    (handleMessage s (.error em)).state.messageCount = s.messageCount ∧
    ∀ m : LiveMessage,
      (handleMessage (handleMessage s (.error em)).state m).emitted =
        (handleMessage s m).emitted ∧
      (handleMessage (handleMessage s (.error em)).state m).state.messageCount =
        (handleMessage s m).state.messageCount ∧
      (handleMessage (handleMessage s (.error em)).state m).closedSocket = false ∧
      (handleMessage (handleMessage s (.error em)).state m).calledOnDisconnect = false := by
  refine ⟨rfl, rfl, rfl, rfl, rfl, fun m => ?_⟩
  cases m <;> exact ⟨rfl, rfl, rfl, rfl⟩

/-- **C5.** The submit handler sends no request exactly when splitting the
symbols input on commas yields no non-empty symbol (so an empty split means
nothing is sent); when it sends a request, the request's symbol list is the
normalised split itself — non-empty and made of trimmed, non-empty
strings — its schema is one of the three allowed values, its two times are
the RFC 3339 conversions of the form fields, and it carries the limit. -/
theorem submitted_request_symbols_valid (toRfc3339 : String → String)
    (input : List Char) (schema : Schema) (st en : String) (lim : Int) :
    (handleFetchHistorical toRfc3339 input schema st en lim = none ↔
      parseSymbolList input = []) ∧
    ∀ req : HistoricalRequest,
      handleFetchHistorical toRfc3339 input schema st en lim = some req →
      req.symbols = parseSymbolList input ∧
      req.symbols ≠ [] ∧
      (∀ s ∈ req.symbols, s ≠ [] ∧ jsTrim s = s) ∧
      (req.schema = .trades ∨ req.schema = .ohlcv1s ∨ req.schema = .ohlcv1m) ∧
      req.start_rfc3339 = toRfc3339 st ∧
      req.end_rfc3339 = toRfc3339 en ∧
      req.limit = some lim := by
  constructor
  · constructor
    · intro h
      rw [handleFetchHistorical] at h
      by_cases he : parseSymbolList input = []
      · exact he
      · rw [if_neg he] at h
        exact absurd h (by simp)
    · intro he
      rw [handleFetchHistorical, if_pos he]
  · intro req h
    rw [handleFetchHistorical] at h
    by_cases he : parseSymbolList input = []
    · rw [if_pos he] at h
      exact absurd h (by simp)
    · rw [if_neg he] at h
      have hreq : req = ⟨parseSymbolList input, schema, none, toRfc3339 st,
          toRfc3339 en, some lim⟩ := by
        cases h
        rfl
      subst hreq
      refine ⟨rfl, he, fun s hs => ?_, ?_, rfl, rfl, rfl⟩
      · have hfil := List.of_mem_filter hs
        have hlen : 0 < s.length := of_decide_eq_true hfil
        have hmap : s ∈ (splitComma input).map jsTrim :=
          List.mem_of_mem_filter hs
        obtain ⟨y, _, hy⟩ := List.mem_map.mp hmap
        refine ⟨fun hnil => ?_, ?_⟩
        · rw [hnil] at hlen
          exact absurd hlen (by simp)
        · rw [← hy]
          exact jsTrim_idem y
      · cases schema with
        | trades => exact Or.inl rfl
        | ohlcv1s => exact Or.inr (Or.inl rfl)
        | ohlcv1m => exact Or.inr (Or.inr rfl)

/-- Witness for C5 at concrete submissions: the input `" ES.FUT ,, "`
normalises to the single trimmed symbol `"ES.FUT"`, which is sent, while
the input `" , "` splits to no non-empty symbol and nothing is sent. -/
theorem submitted_request_symbols_valid_witness :
    ("ES.FUT".data ≠ ([] : List Char) ∧ jsTrim ("ES.FUT".data) = "ES.FUT".data) ∧
    handleFetchHistorical (fun s => s) (" ES.FUT ,, ".data) Schema.trades ("s") ("e") 5 =
      some ⟨[("ES.FUT".data)], Schema.trades, none, ("s"), ("e"), some 5⟩ ∧
    handleFetchHistorical (fun s => s) (" , ".data) Schema.trades ("s") ("e") 5 = none := by
  have happ := (submitted_request_symbols_valid (fun s => s) (" ES.FUT ,, ".data)
    Schema.trades ("s") ("e") 5).2
    ⟨[("ES.FUT".data)], Schema.trades, none, ("s"), ("e"), some 5⟩ (by decide)
  refine ⟨happ.2.2.1 ("ES.FUT".data) (by simp), by decide, ?_⟩
  exact (submitted_request_symbols_valid (fun s => s) (" , ".data)
    Schema.trades ("s") ("e") 5).1.mpr (by decide)

/-- **C6 counterexample.** Typing `-5` into the limit field stores `-5`
(JavaScript `-5 || 100` keeps `-5`), and a submission then carries
`limit = -5`, which is not positive. -/
theorem limit_can_be_negative_counterexample :
    limitAfterEdits [("-5".data)] = -5 ∧
    handleFetchHistorical (fun s => s) ("ES.FUT".data) Schema.trades ("s") ("e")
        (limitAfterEdits [("-5".data)]) =
      some ⟨[("ES.FUT".data)], Schema.trades, none, ("s"), ("e"), some (-5)⟩ ∧
    ¬ (0 < (-5 : Int)) :=
  ⟨by decide, by decide, by decide⟩

/-- **C6 (amended).** The limit state is never zero at submission time
(zero and unparseable edits are coerced to `100`), and it is a positive
integer whenever no edit parsed to a negative value; a negative edit,
however, is stored and submitted unchanged. -/
theorem limit_never_zero_and_positive_unless_negative_edit
    (edits : List (List Char)) :
    limitAfterEdits edits ≠ 0 ∧
    ((∀ e ∈ edits, ∀ n : Int, jsParseInt e = some n → 0 ≤ n) →
      0 < limitAfterEdits edits) := by
  constructor
  · exact foldl_editLimit_ne_zero edits 100 (by decide)
  · intro h
    exact foldl_editLimit_pos edits h 100 (by decide)

/-- Witness for C6's amended theorem: after the single edit `7` the limit is
positive. -/
theorem limit_positive_witness : 0 < limitAfterEdits [("7".data)] := by
  refine (limit_never_zero_and_positive_unless_negative_edit [("7".data)]).2 ?_
  intro e he n hn
  rw [List.mem_singleton] at he
  subst he
  have hval : jsParseInt ("7".data) = some 7 := by decide
  rw [hval] at hn
  cases hn
  decide

/-- **C7.** Prices are decoded at scale 1e9 and no other factor:
`formatPriceNumber p` is exactly `p / 10^9` (so multiplying back by `10^9`
recovers `p`), `formatPrice p` renders that same quotient to two decimal
places, and the scale constant itself is `10^9`. -/
theorem price_decode_scale_1e9 (p : Int) :
    formatPriceNumber p = (p : ℚ) / 10 ^ 9 ∧
    formatPriceNumber p * 10 ^ 9 = (p : ℚ) ∧
    formatPrice p = toFixed2 (formatPriceNumber p) ∧
    PRICE_SCALE = 10 ^ 9 := by
  refine ⟨by rw [formatPriceNumber, PRICE_SCALE_eq], ?_, rfl, PRICE_SCALE_eq⟩
  rw [formatPriceNumber, PRICE_SCALE_eq, div_mul_cancel₀]
  norm_num

/-- **C8.** For every input order, the series handed to the candlestick
chart is sorted by time ascending and is a permutation of the converted
bars; each converted bar has `time = ts_event_unix_ns / 10^9` and its four
prices decoded at scale `10^9`. -/
theorem chart_series_sorted_and_scaled (data : List OhlcvRecord) :
    (chartSeries data).Pairwise (fun a b => a.time ≤ b.time) ∧
    (chartSeries data).Perm (data.map toChartPoint) ∧
    ∀ bar : OhlcvRecord, toChartPoint bar =
      ⟨(bar.ts_event_unix_ns : ℚ) / 10 ^ 9, (bar.open_i64 : ℚ) / 10 ^ 9,
       (bar.high_i64 : ℚ) / 10 ^ 9, (bar.low_i64 : ℚ) / 10 ^ 9,
       (bar.close_i64 : ℚ) / 10 ^ 9⟩ := by
  refine ⟨?_, List.mergeSort_perm (data.map toChartPoint) chartLe, fun bar => ?_⟩
  · have hs := @List.sorted_mergeSort ChartPoint chartLe
      (fun a b c hab hbc => by
        rw [chartLe, decide_eq_true_eq] at hab hbc ⊢
        exact le_trans hab hbc)
      (fun a b => by
        rw [Bool.or_eq_true, chartLe, chartLe, decide_eq_true_eq, decide_eq_true_eq]
        exact le_total a.time b.time)
      (data.map toChartPoint)
    exact hs.imp fun hab => by
      rw [chartLe, decide_eq_true_eq] at hab
      exact hab
  · rw [toChartPoint, formatPriceNumber, formatPriceNumber, formatPriceNumber,
      formatPriceNumber, PRICE_SCALE_eq]
    norm_num

/-- **C9.** A live `'ohlcv'` message is silently discarded: the handler
returns the state unchanged, emits nothing, and triggers no disconnect or
close, for every client state. -/
theorem ohlcv_message_ignored (s : ClientState) (ts : Int) (sym : String)
    (o hi lo c v : Int) :
    handleMessage s (.ohlcv ts sym o hi lo c v) = ⟨s, none, false, false⟩ := rfl

/-- **C10.** After any sequence of incoming trades, the `liveTrades` buffer
is exactly the reversed arrival sequence truncated to 100: it holds at most
100 records and its first element is the most recently received trade. -/
theorem live_trades_buffer_invariant (arrivals : List TradeRecord) :
    liveTradesAfter arrivals = arrivals.reverse.take 100 ∧
    (liveTradesAfter arrivals).length ≤ 100 ∧
    (liveTradesAfter arrivals).head? = arrivals.getLast? := by
  have h : liveTradesAfter arrivals = arrivals.reverse.take 100 := by
    rw [liveTradesAfter, foldl_handleLiveTrade arrivals [] (by simp)]
    simp
  refine ⟨h, ?_, ?_⟩
  · rw [h, List.length_take]
    exact min_le_left _ _
  · rw [h, List.head?_take]
    simp [List.head?_reverse]
